import Mathlib

/-!
Verification development for the paragraph-extraction core of the
`matovu-farid/epub.js` repository (`src/rendition.js`).

The embedding models JS strings as `List Char`, and the DOM tree as an
arena of text leaves listed in tree-walker (document) order, each leaf
carrying its chain of ancestor elements (nearest first).  The DOM
collaborators used by the source (`Range.toString`, `Range.setStart`,
`Range.setEnd`, `TreeWalker` with `intersectsNode`, `parentElement`,
`Element.matches`) are modelled by their standard semantics; the CFI
library (`EpubCFI`, `contents.cfiFromRange`) is an external black box,
modelled as an injective serializer — a serialized range is represented
by the range itself.
-/

namespace EpubJs

/-- JS `String.prototype.trim` whitespace test (`Char.isWhitespace`). -/
def isWs (c : Char) : Bool := c.isWhitespace

/-- JS `s.trim()`: drop whitespace from both ends. -/
def jsTrim (s : List Char) : List Char :=
  ((s.dropWhile isWs).reverse.dropWhile isWs).reverse

/-- The maximal whitespace-free words of a string, in order
(used only to state whitespace-normalized comparison). -/
def wordsOf (s : List Char) : List (List Char) :=
  (s.foldr
    (fun c acc =>
      if isWs c then [] :: acc
      else
        match acc with
        | [] => [[c]]
        | w :: ws => (c :: w) :: ws)
    []).filter (fun w => ¬ w.isEmpty)

/-- Whitespace normalization: collapse every whitespace run to a single
space and trim the ends (the `replace(/\s+/g, " ").trim()` idiom of the
repository's tests). -/
def normalizeWs (s : List Char) : List Char :=
  match wordsOf s with
  | [] => []
  | w :: ws => w ++ (ws.map (fun v => ' ' :: v)).flatten

/-- One text node of the document: its identity, its `textContent`, and
its chain of ancestor elements `(id, tagName)`, nearest first
(`parentElement`, then the parent's parent, ...). -/
structure TextNodeRec where
  id : Nat
  content : List Char
  ancestors : List (Nat × String)
deriving DecidableEq

/-- The DOM document, as the tree walker sees it: its text leaves in
document order.  (Node ids are assumed unique per document; JS object
identity is modelled by id equality.) -/
structure Doc where
  leaves : List TextNodeRec
deriving DecidableEq

/-- The block-level selector list of `_findContainingBlockElement`
(src/rendition.js lines 1523-1524). -/
def blockSelectors : List String :=
  ["p", "div", "h1", "h2", "h3", "h4", "h5", "h6", "li", "blockquote",
   "pre", "article", "section", "aside", "header", "footer", "main",
   "nav", "figure", "figcaption", "dd", "dt"]

/-- `_findContainingBlockElement` (src/rendition.js lines 1522-1550):
walk `parentElement` ancestors outward, return the first whose tag
matches the block selector list, else null. -/
def findContainingBlockElement (t : TextNodeRec) : Option (Nat × String) :=
  t.ancestors.find? (fun p => blockSelectors.contains p.2)

/-- A DOM `Range`: (node, offset) boundary pair, nodes named by id. -/
structure Rng where
  startId : Nat
  startOff : Nat
  endId : Nat
  endOff : Nat
deriving DecidableEq

/-- Document-order position of the text leaf with the given id. -/
def leafPos (d : Doc) (i : Nat) : Nat :=
  d.leaves.findIdx (fun t => t.id == i)

/-- Strict document-order comparison of two (node, offset) boundary
points. -/
def bpBefore (d : Doc) (aId aOff bId bOff : Nat) : Bool :=
  leafPos d aId < leafPos d bId ||
    (leafPos d aId == leafPos d bId && aOff < bOff)

/-- `document.createRange(); range.setStart(s); range.setEnd(e)` —
per the DOM standard, if the new end point is before the current start
point, `setEnd` moves the start there too, collapsing the range. -/
def mkRange (d : Doc) (sId sOff eId eOff : Nat) : Rng :=
  if bpBefore d eId eOff sId sOff then ⟨eId, eOff, eId, eOff⟩
  else ⟨sId, sOff, eId, eOff⟩

/-- Does a text leaf intersect the range (`range.intersectsNode`)?  In
this leaf-granularity model: the leaf lies between the start node and
the end node in document order. -/
def leafInRange (d : Doc) (r : Rng) (t : TextNodeRec) : Bool :=
  leafPos d r.startId ≤ leafPos d t.id && leafPos d t.id ≤ leafPos d r.endId

/-- `_getTextNodesInRange` (src/rendition.js lines 1484-1514): walk all
text nodes under the common ancestor, keeping those that intersect the
range, in document order. -/
def getTextNodesInRange (d : Doc) (r : Rng) : List TextNodeRec :=
  d.leaves.filter (leafInRange d r)

/-- The part of one text leaf's content that lies inside the range
(DOM `Range.toString` semantics for a text node). -/
def clipInRange (r : Rng) (t : TextNodeRec) : List Char :=
  if t.id == r.startId && t.id == r.endId then
    (t.content.take r.endOff).drop r.startOff
  else if t.id == r.startId then t.content.drop r.startOff
  else if t.id == r.endId then t.content.take r.endOff
  else t.content

/-- `range.toString()`: concatenation, in document order, of the
in-range part of every intersecting text node. -/
def rangeToString (d : Doc) (r : Rng) : List Char :=
  ((getTextNodesInRange d r).map (clipInRange r)).flatten

/-- One output paragraph of `_getParagraphsFromRange`: the trimmed text
and the serialized CFI range (`cfiFromRange` modelled as the identity
serializer on ranges). -/
structure ParagraphOut where
  text : List Char
  cfiRange : Rng
deriving DecidableEq

/-- The loop state of the per-group loop of `_getParagraphsFromRange`
(src/rendition.js lines 1401-1435): `elementText`, `firstTextNode`,
`lastTextNode` (by id), `firstTextOffset`, `lastTextOffset`. -/
structure GroupAcc where
  elementText : List Char
  firstTextNode : Option Nat
  lastTextNode : Option Nat
  firstTextOffset : Nat
  lastTextOffset : Nat
deriving DecidableEq

/-- One iteration of the per-group loop (src/rendition.js lines
1407-1435), translated branch by branch: the start-container leaf
contributes `nodeText.substring(range.startOffset)` and sets
`firstTextOffset`; otherwise the end-container leaf contributes
`nodeText.substring(0, range.endOffset)` and sets `lastTextOffset`;
any other leaf contributes its full text, sets `firstTextOffset` to 0
when it is the group's first node, and sets `lastTextOffset` to its
full length. -/
def processLeaf (r : Rng) (acc : GroupAcc) (t : TextNodeRec) : GroupAcc :=
  let nodeText := t.content
  let firstTN := match acc.firstTextNode with
    | none => some t.id
    | some f => some f
  if t.id == r.startId then
    { elementText := acc.elementText ++ nodeText.drop r.startOff
      firstTextNode := firstTN
      lastTextNode := some t.id
      firstTextOffset := r.startOff
      lastTextOffset := acc.lastTextOffset }
  else if t.id == r.endId then
    { elementText := acc.elementText ++ nodeText.take r.endOff
      firstTextNode := firstTN
      lastTextNode := some t.id
      firstTextOffset := acc.firstTextOffset
      lastTextOffset := r.endOff }
  else
    { elementText := acc.elementText ++ nodeText
      firstTextNode := firstTN
      lastTextNode := some t.id
      firstTextOffset := if firstTN == some t.id then 0 else acc.firstTextOffset
      lastTextOffset := nodeText.length }

/-- Insert a text node into the `Map` of block element id to text nodes
(src/rendition.js lines 1385-1395); a JS `Map` keeps insertion order of
keys and the node is pushed at the end of its key's list. -/
def insertGroup : List (Nat × List TextNodeRec) → Nat → TextNodeRec →
    List (Nat × List TextNodeRec)
  | [], k, t => [(k, [t])]
  | (k', ts) :: rest, k, t =>
    if k' == k then (k', ts ++ [t]) :: rest
    else (k', ts) :: insertGroup rest k t

/-- One iteration of the grouping loop of `_getParagraphsFromRange`
(src/rendition.js lines 1387-1395): a node with a containing block
element joins that element's group; a node without one is dropped. -/
def groupStep (m : List (Nat × List TextNodeRec)) (t : TextNodeRec) :
    List (Nat × List TextNodeRec) :=
  match findContainingBlockElement t with
  | some b => insertGroup m b.1 t
  | none => m

/-- The grouping loop of `_getParagraphsFromRange` (src/rendition.js
lines 1385-1395): group the text nodes by containing block element. -/
def buildGroups (ts : List TextNodeRec) : List (Nat × List TextNodeRec) :=
  ts.foldl groupStep []

/-- The body of the per-group loop of `_getParagraphsFromRange`
(src/rendition.js lines 1398-1468): run the leaf loop, trim the
concatenated text, skip the group when the text is empty or no node was
seen, else build the paragraph range (`createRange`; `setStart`;
`setEnd` — with the DOM collapse rule) and serialize it. -/
def processGroup (d : Doc) (r : Rng) (ts : List TextNodeRec) :
    Option ParagraphOut :=
  let acc := ts.foldl (processLeaf r) ⟨[], none, none, 0, 0⟩
  let elementText := jsTrim acc.elementText
  match acc.firstTextNode, acc.lastTextNode with
  | some f, some l =>
    if elementText.isEmpty then none
    else some ⟨elementText, mkRange d f acc.firstTextOffset l acc.lastTextOffset⟩
  | _, _ => none

/-- `_getParagraphsFromRange` (src/rendition.js lines 1360-1476): read
the range's full text and return `[]` when its trim is empty; collect
the intersecting text nodes and return `[]` when there are none; group
them by containing block element; emit one paragraph per surviving
group, in group insertion order. -/
def getParagraphsFromRange (d : Doc) (r : Rng) : List ParagraphOut :=
  let fullText := rangeToString d r
  if (jsTrim fullText).isEmpty then []
  else
    let textNodes := getTextNodesInRange d r
    if textNodes.isEmpty then []
    else
      (buildGroups textNodes).filterMap (fun g => processGroup d r g.2)

/-- A stored CFI string of a mapping, as the extraction entry points see
it: either it fails to parse (`new EpubCFI(...)` throws), or it parses
but `toRange` yields nothing in the given document, or it resolves to a
(text node, offset) boundary. -/
inductive Loc where
  | malformed
  | unresolved
  | resolved (leafId : Nat) (off : Nat)
deriving DecidableEq

/-- `new EpubCFI(str)` followed by `.toRange(document)`: `none` when the
string does not parse or does not resolve against the tree, else the
boundary point. -/
def resolveLoc (l : Loc) : Option (Nat × Nat) :=
  match l with
  | .malformed => none
  | .unresolved => none
  | .resolved i o => some (i, o)

/-- `visibleSection.mapping`: the stored start and end CFI strings
(`none` models a falsy field). -/
structure Mapping where
  start : Option Loc
  stop : Option Loc
deriving DecidableEq

/-- One entry of `manager.currentLocation()`: a visible section's index
and mapping. -/
structure VisibleSection where
  index : Nat
  mapping : Option Mapping
deriving DecidableEq

/-- One rendered view: its section index and its contents document
(`none` models a missing `view.contents`/`view.contents.document`). -/
structure View where
  index : Nat
  doc : Option Doc
deriving DecidableEq

/-- The manager: `currentLocation()` (the ordered visible sections) and
`views`. -/
structure Manager where
  location : List VisibleSection
  views : List View
deriving DecidableEq

/-- The rendition as the two entry points read it: an optional manager. -/
structure RenditionState where
  manager : Option Manager
deriving DecidableEq

/-- The result object of `getCurrentViewText`: the range text and the
mapping's CFI strings. -/
structure TextResult where
  text : List Char
  startCfi : Loc
  endCfi : Loc
deriving DecidableEq

/-- `getCurrentViewText` (src/rendition.js lines 1230-1290): null when
the manager, the current location, its first entry, the mapping or its
ends, the view, or its document is missing; null when either CFI fails
to parse or to resolve (the `!startRange || !endRange` check and the
surrounding try/catch); else the text of the range built from the two
resolved boundaries, with the mapping's own CFI strings. -/
def getCurrentViewText (st : RenditionState) : Option TextResult :=
  match st.manager with
  | none => none
  | some m =>
    match m.location with
    | [] => none
    | vs :: _ =>
      match vs.mapping with
      | none => none
      | some mp =>
        match mp.start, mp.stop with
        | some sLoc, some eLoc =>
          match m.views.find? (fun v => v.index == vs.index) with
          | none => none
          | some v =>
            match v.doc with
            | none => none
            | some d =>
              match resolveLoc sLoc, resolveLoc eLoc with
              | some s, some e =>
                let r := mkRange d s.1 s.2 e.1 e.2
                some ⟨rangeToString d r, sLoc, eLoc⟩
              | _, _ => none
        | _, _ => none

/-- `getCurrentViewParagraphs` (src/rendition.js lines 1296-1351): the
same preliminary checks and range construction as `getCurrentViewText`,
then `_getParagraphsFromRange` on the built range.  The `minLength`
option (default 50) is destructured at line 1297 but never used in the
body — the parameter is kept here exactly as in the source. -/
def getCurrentViewParagraphs (st : RenditionState) (minLength : Nat := 50) :
    Option (List ParagraphOut) :=
  match st.manager with
  | none => none
  | some m =>
    match m.location with
    | [] => none
    | vs :: _ =>
      match vs.mapping with
      | none => none
      | some mp =>
        match mp.start, mp.stop with
        | some sLoc, some eLoc =>
          match m.views.find? (fun v => v.index == vs.index) with
          | none => none
          | some v =>
            match v.doc with
            | none => none
            | some d =>
              match resolveLoc sLoc, resolveLoc eLoc with
              | some s, some e =>
                let r := mkRange d s.1 s.2 e.1 e.2
                some (getParagraphsFromRange d r)
              | _, _ => none
        | _, _ => none

/-- Modelled from the spec: the fixed timeout bound of the
cross-section load race (spec section 4.4, "a fixed timeout (default 10
time units)"); the code of `getNextViewParagraphs` and its section
loader is not part of this source snapshot. -/
def sectionLoadBound : Nat := 10

/-- Modelled from the spec: racing the loader against the timer (spec
section 4.4 and 9).  The loader either never completes (`none`) or
completes at some time; the load wins exactly when it completes no
later than the bound, else the timer fires first and the load's late
completion is discarded. -/
def raceLoad (loadTime : Option Nat) (bound : Nat) (d : Doc) : Option Doc :=
  match loadTime with
  | none => none
  | some t => if t ≤ bound then some d else none

/-- Modelled from the spec: the cross-section path of
`getNextPageParagraphs` (spec section 4.4), taken when the current page
max reaches the total page count: race the next unit's load against the
timeout; on timeout yield the empty list with no retry; on success
extract the paragraphs of the next unit's first-page window and drop
every unit shorter than `minLength`. -/
def getNextPageParagraphsCross (loadTime : Option Nat) (d : Doc) (r : Rng)
    (minLength : Nat := 50) : List ParagraphOut :=
  match raceLoad loadTime sectionLoadBound d with
  | none => []
  | some root =>
    (getParagraphsFromRange root r).filter (fun p => minLength ≤ p.text.length)

/-- The text one leaf contributes inside the per-group loop of
`_getParagraphsFromRange` (the three `elementText +=` branches of
src/rendition.js lines 1417-1434, read off `processLeaf`): the start
container contributes from the start offset, otherwise the end
container contributes up to the end offset, any other leaf its full
text. -/
def leafContribution (r : Rng) (t : TextNodeRec) : List Char :=
  if t.id == r.startId then t.content.drop r.startOff
  else if t.id == r.endId then t.content.take r.endOff
  else t.content

/-- All text nodes collected across a group list, in group order. -/
def groupMembers (gs : List (Nat × List TextNodeRec)) : List TextNodeRec :=
  (gs.map Prod.snd).flatten

/-- How many collected nodes carry the given id. -/
def countId (i : Nat) (ts : List TextNodeRec) : Nat :=
  ts.countP (fun t => t.id == i)

/-- Concatenation of the text fields of a paragraph list (the
`paragraphs.map(p => p.text).join("")` comparison shape). -/
def joinTexts (ps : List ParagraphOut) : List Char :=
  (ps.map ParagraphOut.text).flatten

/-- Every node of every group sits under the block element the group is
keyed by, and that element is the node's first matching (nearest)
block-level ancestor. -/
def groupsKeyed (gs : List (Nat × List TextNodeRec)) : Prop :=
  ∀ g ∈ gs, ∀ t ∈ g.2, ∃ tag, findContainingBlockElement t = some (g.1, tag)

/-- Shorthand: the character list of a string literal. -/
def S (s : String) : List Char := s.data

/-- A document whose only text sits inside inline structure: one text
node under a `span` under `body`, neither of which is block-level. -/
def inlineOnlyDoc : Doc := ⟨[⟨2, S "ABCDEFGHIJ", [(1, "span"), (0, "body")]⟩]⟩

/-- The range covering all of `inlineOnlyDoc`'s text node. -/
def inlineOnlyRng : Rng := ⟨2, 0, 2, 10⟩

/-- A document with one 31-character paragraph under a `p`. -/
def shortParaDoc : Doc :=
  ⟨[⟨1, S "This text is 31 characters long", [(4, "p"), (0, "body")]⟩]⟩

/-- A displayed page over `shortParaDoc`: manager, location, mapping
and view document all present, mapping resolving to the full text
node. -/
def shortParaState : RenditionState :=
  ⟨some ⟨[⟨0, some ⟨some (.resolved 1 0), some (.resolved 1 31)⟩⟩],
    [⟨0, some shortParaDoc⟩]⟩⟩

/-- A document with two text nodes inside one `p`. -/
def twoLeafDoc : Doc :=
  ⟨[⟨1, S "Hello ", [(5, "p"), (0, "body")]⟩,
    ⟨2, S "World", [(5, "p"), (0, "body")]⟩]⟩

/-- A displayed page over `twoLeafDoc` whose mapping is reversed: the
start CFI resolves to a boundary after the end CFI's boundary. -/
def reversedMappingState : RenditionState :=
  ⟨some ⟨[⟨0, some ⟨some (.resolved 2 3), some (.resolved 1 1)⟩⟩],
    [⟨0, some twoLeafDoc⟩]⟩⟩

/-- A displayed page over `twoLeafDoc` whose start CFI string does not
parse (`new EpubCFI` throws). -/
def malformedStartState : RenditionState :=
  ⟨some ⟨[⟨0, some ⟨some .malformed, some (.resolved 2 5)⟩⟩],
    [⟨0, some twoLeafDoc⟩]⟩⟩

/-- A displayed page over `twoLeafDoc` whose end CFI parses but does
not resolve into the tree (`toRange` yields nothing). -/
def unresolvedEndState : RenditionState :=
  ⟨some ⟨[⟨0, some ⟨some (.resolved 1 0), some .unresolved⟩⟩],
    [⟨0, some twoLeafDoc⟩]⟩⟩

/-- A document with a single text node that is both the range's start
and end container. -/
def singleLeafDoc : Doc := ⟨[⟨1, S "HelloWorld", [(7, "p"), (0, "body")]⟩]⟩

/-- A document with an orphan text node (under `body` only, no
block-level ancestor) followed by a `p` paragraph. -/
def orphanDoc : Doc :=
  ⟨[⟨1, S "Orphan ", [(0, "body")]⟩,
    ⟨2, S "Alpha text.", [(3, "p"), (0, "body")]⟩]⟩

/-- The range covering both of `orphanDoc`'s text nodes. -/
def orphanRng : Rng := ⟨1, 0, 2, 11⟩

/-- A displayed page over `orphanDoc` whose mapping resolves to
`orphanRng`. -/
def orphanState : RenditionState :=
  ⟨some ⟨[⟨0, some ⟨some (.resolved 1 0), some (.resolved 2 11)⟩⟩],
    [⟨0, some orphanDoc⟩]⟩⟩

/-- A document with two paragraphs, `Alpha text.` and `Beta text.`,
in two separate `p` blocks. -/
def twoBlockDoc : Doc :=
  ⟨[⟨1, S "Alpha text.", [(10, "p"), (0, "body")]⟩,
    ⟨2, S "Beta text.", [(11, "p"), (0, "body")]⟩]⟩

/-- The range covering both paragraphs of `twoBlockDoc`. -/
def twoBlockRng : Rng := ⟨1, 0, 2, 10⟩

/-- A displayed page over `twoLeafDoc` whose mapping resolves to a
collapsed (empty-text) range. -/
def emptyRangeState : RenditionState :=
  ⟨some ⟨[⟨0, some ⟨some (.resolved 1 2), some (.resolved 1 2)⟩⟩],
    [⟨0, some twoLeafDoc⟩]⟩⟩

/-- C1.  On `inlineOnlyDoc` the full range has non-empty trimmed text
`ABCDEFGHIJ`, the structural grouping produces zero units (no ancestor
is block-level), yet `_getParagraphsFromRange` returns the empty list:
the source has no fallback step, contradicting the claimed synthesis of
exactly one unit spanning the original range (and the repository's own
BUGFIX_IMPLEMENTATION_SUMMARY.md, which documents that fallback as
implemented). -/
theorem C1_no_fallback_at_failing_input :
    getParagraphsFromRange inlineOnlyDoc inlineOnlyRng = [] ∧
    jsTrim (rangeToString inlineOnlyDoc inlineOnlyRng) = S "ABCDEFGHIJ" := by
  decide

/-- C2.  `getCurrentViewParagraphs` with the default `minLength = 50`
returns a paragraph of length 31: the option is destructured at
src/rendition.js line 1297 but never applied, so units shorter than
`minLength` are not dropped, contradicting the claimed filter (and the
repository's own BUGFIX_IMPLEMENTATION_SUMMARY.md Bug 4, which calls
the unused option a bug). -/
theorem C2_minLength_filter_not_applied :
    (getCurrentViewParagraphs shortParaState).map
        (fun l => l.map (fun p => p.text.length)) = some [31] ∧
    31 < 50 := by
  decide

/-- C3.  On the reversed mapping of `reversedMappingState` the source
performs no boundary comparison and no swap (src/rendition.js lines
1340-1342 just `setStart`/`setEnd`): per DOM semantics the range
collapses at the end boundary and extraction yields zero paragraphs,
while the swapped (repaired) range the claim requires yields a
non-empty paragraph list. -/
theorem C3_no_order_repair :
    getCurrentViewParagraphs reversedMappingState = some [] ∧
    getParagraphsFromRange twoLeafDoc ⟨1, 1, 2, 3⟩ ≠ [] := by
  decide

/-- C5.  On `singleLeafDoc` with range (leaf 1, 2)–(leaf 1, 7) the one
leaf is both the start and the end boundary.  The claimed uniform
clipping gives text `lloWo` (from offset 2 up to offset 7) and recorded
offsets 2 and 7; the source's `else if` chain applies only the start
clip, producing `lloWorld` (running past the end offset), leaves
`lastTextOffset` at its initial 0, and hence records the collapsed
sub-range (1,0)–(1,0). -/
theorem C5_boundary_clip_not_uniform :
    getParagraphsFromRange singleLeafDoc ⟨1, 2, 1, 7⟩ =
      [⟨S "lloWorld", ⟨1, 0, 1, 0⟩⟩] ∧
    rangeToString singleLeafDoc ⟨1, 2, 1, 7⟩ = S "lloWo" := by
  decide

/-- C10.  Both `getCurrentViewText` and `getCurrentViewParagraphs`
read only the first entry of `manager.currentLocation()`: replacing
every later visible section by any other list leaves both results
unchanged, so text of a later visible section never appears. -/
theorem C10_only_first_visible_section (m : Manager) (vs : VisibleSection)
    (rest rest2 : List VisibleSection) :
    getCurrentViewText ⟨some { m with location := vs :: rest }⟩ =
      getCurrentViewText ⟨some { m with location := vs :: rest2 }⟩ ∧
    getCurrentViewParagraphs ⟨some { m with location := vs :: rest }⟩ =
      getCurrentViewParagraphs ⟨some { m with location := vs :: rest2 }⟩ :=
  ⟨rfl, rfl⟩

/-- C6.  Cross-section path: whenever the next unit's load does not
complete within the timeout bound (it never completes, or completes
only after the bound), the call still resolves and yields the empty
list — no retry, no rejection. -/
theorem C6_timeout_yields_empty_list (loadTime : Option Nat) (d : Doc)
    (r : Rng) (minLength : Nat)
    (h : ∀ t, loadTime = some t → sectionLoadBound < t) :
    getNextPageParagraphsCross loadTime d r minLength = [] := by
  cases loadTime with
  | none => rfl
  | some t =>
    have ht := h t rfl
    simp [getNextPageParagraphsCross, raceLoad, Nat.not_le.mpr ht]

/-- C6 witness: a load that would arrive at time 15 loses the race
against the bound 10 and the call yields `[]`. -/
theorem C6_timeout_witness :
    (∀ t, (some 15 : Option Nat) = some t → sectionLoadBound < t) ∧
    getNextPageParagraphsCross (some 15) twoBlockDoc twoBlockRng 50 = [] :=
  ⟨fun t ht => by cases ht; decide,
   C6_timeout_yields_empty_list (some 15) twoBlockDoc twoBlockRng 50
     (fun t ht => by cases ht; decide)⟩

/-- C4 counterexample: in `malformedStartState` a page is displayed
(manager, current location, mapping and view document all present) and
only the start CFI fails to parse, yet the call returns null — not the
empty list the claim requires for location failures. -/
theorem C4_counterexample_null_on_location_failure :
    getCurrentViewParagraphs malformedStartState = none ∧
    malformedStartState.manager.isSome = true ∧
    ((malformedStartState.manager.bind (fun m => m.location.head?)).bind
      (fun vs => vs.mapping)).isSome = true ∧
    ((malformedStartState.manager.bind (fun m => m.views.head?)).bind
      (fun v => v.doc)).isSome = true := by
  decide

/-- C4 amended: a location failure (either CFI failing to parse or to
resolve) aborts only the call in progress and surfaces as null — never
as a thrown exception; so null is returned both when no page is
displayed and on location failure. -/
theorem C4_location_failure_surfaces_as_null (m : Manager)
    (vs : VisibleSection) (rest : List VisibleSection) (mp : Mapping)
    (sLoc eLoc : Loc)
    (hloc : m.location = vs :: rest) (hmp : vs.mapping = some mp)
    (hs : mp.start = some sLoc) (he : mp.stop = some eLoc)
    (hfail : resolveLoc sLoc = none ∨ resolveLoc eLoc = none) :
    getCurrentViewParagraphs ⟨some m⟩ = none := by
  simp only [getCurrentViewParagraphs, hloc, hmp, hs, he]
  cases hf : m.views.find? (fun v => v.index == vs.index) with
  | none => rfl
  | some v =>
    cases hd : v.doc with
    | none => simp [hd]
    | some d =>
      rcases hfail with h | h
      · cases he2 : resolveLoc eLoc <;> simp [hd, h, he2]
      · cases hs2 : resolveLoc sLoc <;> simp [hd, h, hs2]

/-- C4 witness: the amended theorem applied to `malformedStartState`. -/
theorem C4_amended_witness :
    (resolveLoc Loc.malformed = none ∨
      resolveLoc (Loc.resolved 2 5) = none) ∧
    getCurrentViewParagraphs malformedStartState = none :=
  ⟨Or.inl rfl,
   C4_location_failure_surfaces_as_null
     ⟨[⟨0, some ⟨some .malformed, some (.resolved 2 5)⟩⟩],
       [⟨0, some twoLeafDoc⟩]⟩
     ⟨0, some ⟨some .malformed, some (.resolved 2 5)⟩⟩ []
     ⟨some .malformed, some (.resolved 2 5)⟩ .malformed (.resolved 2 5)
     rfl rfl rfl rfl (Or.inl rfl)⟩

/-- C9 counterexample: in `unresolvedEndState` a page is displayed
(manager, current location, mapping and view document all present) and
only the end CFI fails to resolve, yet the call returns null — so the
no-displayed-page case is not the only source of null. -/
theorem C9_counterexample_null_beyond_no_page :
    getCurrentViewParagraphs unresolvedEndState = none ∧
    unresolvedEndState.manager.isSome = true ∧
    ((unresolvedEndState.manager.bind (fun m => m.location.head?)).bind
      (fun vs => vs.mapping)).isSome = true ∧
    ((unresolvedEndState.manager.bind (fun m => m.views.head?)).bind
      (fun v => v.doc)).isSome = true := by
  decide

/-- C9 amended: when the range resolves and its flattened text is empty
or whitespace-only (in particular whenever no text node intersects the
range, which forces empty flattened text), `getCurrentViewParagraphs`
returns the empty list, not null; null arises from the missing-state
checks or from location failures. -/
theorem C9_empty_content_yields_empty_list (m : Manager)
    (vs : VisibleSection) (rest : List VisibleSection) (mp : Mapping)
    (sLoc eLoc : Loc) (v : View) (d : Doc) (s e : Nat × Nat)
    (hloc : m.location = vs :: rest) (hmp : vs.mapping = some mp)
    (hs : mp.start = some sLoc) (he : mp.stop = some eLoc)
    (hv : m.views.find? (fun w => w.index == vs.index) = some v)
    (hd : v.doc = some d)
    (hrs : resolveLoc sLoc = some s) (hre : resolveLoc eLoc = some e)
    (hempty : jsTrim (rangeToString d (mkRange d s.1 s.2 e.1 e.2)) = []) :
    getCurrentViewParagraphs ⟨some m⟩ = some [] := by
  simp only [getCurrentViewParagraphs, hloc, hmp, hs, he, hv, hd, hrs, hre]
  simp [getParagraphsFromRange, hempty]

/-- C9 witness: the amended theorem applied to `emptyRangeState`,
whose mapping resolves to a collapsed range with empty text. -/
theorem C9_amended_witness :
    jsTrim (rangeToString twoLeafDoc (mkRange twoLeafDoc 1 2 1 2)) = [] ∧
    getCurrentViewParagraphs emptyRangeState = some [] :=
  ⟨by decide,
   C9_empty_content_yields_empty_list
     ⟨[⟨0, some ⟨some (.resolved 1 2), some (.resolved 1 2)⟩⟩],
       [⟨0, some twoLeafDoc⟩]⟩
     ⟨0, some ⟨some (.resolved 1 2), some (.resolved 1 2)⟩⟩ []
     ⟨some (.resolved 1 2), some (.resolved 1 2)⟩
     (.resolved 1 2) (.resolved 1 2) ⟨0, some twoLeafDoc⟩ twoLeafDoc
     (1, 2) (1, 2) rfl rfl rfl rfl rfl rfl rfl rfl (by decide)⟩

/-- Inserting a node into the group map adds exactly one occurrence of
its id to the collected members. -/
theorem countId_insertGroup (gs : List (Nat × List TextNodeRec)) (k : Nat)
    (t : TextNodeRec) (i : Nat) :
    countId i (groupMembers (insertGroup gs k t)) =
      countId i (groupMembers gs) + (if t.id == i then 1 else 0) := by
  induction gs with
  | nil =>
    by_cases ht : t.id == i <;>
      simp [insertGroup, groupMembers, countId, List.countP_cons, ht]
  | cons g rest ih =>
    obtain ⟨k', ts⟩ := g
    by_cases hk : k' == k
    · by_cases ht : t.id == i <;>
        simp [insertGroup, hk, groupMembers, countId, List.countP_append,
          List.countP_cons, ht] <;> omega
    · simp only [insertGroup, hk, Bool.false_eq_true, if_false, groupMembers,
        List.map_cons, List.flatten_cons, countId, List.countP_append]
      simp only [groupMembers, countId] at ih
      omega

/-- Folding the grouping step over a node list adds, id by id, exactly
the occurrences of the nodes that have a containing block element. -/
theorem countId_foldl_groupStep (ts : List TextNodeRec)
    (acc : List (Nat × List TextNodeRec)) (i : Nat) :
    countId i (groupMembers (ts.foldl groupStep acc)) =
      countId i (groupMembers acc) +
        countId i (ts.filter (fun t => (findContainingBlockElement t).isSome)) := by
  induction ts generalizing acc with
  | nil => simp [countId]
  | cons t ts ih =>
    cases hb : findContainingBlockElement t with
    | none =>
      simp [List.foldl_cons, groupStep, hb, ih, List.filter_cons]
    | some b =>
      simp only [List.foldl_cons, groupStep, hb, List.filter_cons,
        Option.isSome_some, if_true]
      rw [ih, countId_insertGroup]
      by_cases ht : t.id == i <;> simp [countId, List.countP_cons, ht] <;> omega

/-- Inserting a node whose nearest block element is the key preserves
the keying invariant of the group map. -/
theorem groupsKeyed_insertGroup (gs : List (Nat × List TextNodeRec))
    (k : Nat) (t : TextNodeRec) (tag : String)
    (hk : findContainingBlockElement t = some (k, tag))
    (h : groupsKeyed gs) : groupsKeyed (insertGroup gs k t) := by
  induction gs with
  | nil =>
    intro g hg u hu
    simp [insertGroup] at hg
    subst hg
    simp at hu
    subst hu
    exact ⟨tag, hk⟩
  | cons g rest ih =>
    obtain ⟨k', ts⟩ := g
    by_cases hkk : k' == k
    · intro g' hg' u hu
      simp only [insertGroup, hkk, if_true] at hg'
      rcases List.mem_cons.mp hg' with hg' | hg'
      · subst hg'
        simp only [List.mem_append, List.mem_singleton] at hu
        rcases hu with hu | hu
        · exact h (k', ts) (List.mem_cons_self ..) u hu
        · subst hu
          refine ⟨tag, ?_⟩
          have : k' = k := by simpa using hkk
          rw [hk, this]
      · exact h g' (List.mem_cons_of_mem _ hg') u hu
    · intro g' hg' u hu
      simp only [insertGroup, hkk, Bool.false_eq_true, if_false] at hg'
      rcases List.mem_cons.mp hg' with hg' | hg'
      · subst hg'
        exact h (k', ts) (List.mem_cons_self ..) u hu
      · exact ih (fun g hg => h g (List.mem_cons_of_mem _ hg)) g' hg' u hu

/-- Folding the grouping step preserves the keying invariant. -/
theorem groupsKeyed_foldl_groupStep (ts : List TextNodeRec)
    (acc : List (Nat × List TextNodeRec)) (h : groupsKeyed acc) :
    groupsKeyed (ts.foldl groupStep acc) := by
  induction ts generalizing acc with
  | nil => exact h
  | cons t ts ih =>
    cases hb : findContainingBlockElement t with
    | none => simpa [List.foldl_cons, groupStep, hb] using ih acc h
    | some b =>
      simp only [List.foldl_cons, groupStep, hb]
      exact ih _ (groupsKeyed_insertGroup acc b.1 t b.2 (by simpa using hb) h)

/-- C8.  When the text nodes intersecting the range carry pairwise
distinct identities (as DOM nodes do), the grouping of
`_getParagraphsFromRange` assigns each node to at most one group — each
id occurs at most once across all collected group members — and every
group's members have the group's key as their first matching (nearest)
block-level ancestor; since each returned paragraph is built from the
members of exactly one group, no text node's content feeds more than
one paragraph. -/
theorem C8_node_in_at_most_one_group (d : Doc) (r : Rng)
    (hnd : ((getTextNodesInRange d r).map (fun t => t.id)).Nodup) :
    (∀ i, countId i (groupMembers (buildGroups (getTextNodesInRange d r))) ≤ 1) ∧
    groupsKeyed (buildGroups (getTextNodesInRange d r)) := by
  constructor
  · intro i
    have haux := countId_foldl_groupStep (getTextNodesInRange d r) [] i
    have hfil : countId i ((getTextNodesInRange d r).filter
        (fun t => (findContainingBlockElement t).isSome)) ≤
        countId i (getTextNodesInRange d r) := by
      simp only [countId, List.countP_filter]
      exact List.countP_mono_left (fun t _ h => by
        rw [Bool.and_eq_true] at h
        exact h.1)
    have hcnt : countId i (getTextNodesInRange d r) ≤ 1 := by
      have h1 := List.nodup_iff_count_le_one.mp hnd i
      rwa [List.count_eq_countP, List.countP_map] at h1
    calc countId i (groupMembers (buildGroups (getTextNodesInRange d r)))
        = countId i (groupMembers ([] : List (Nat × List TextNodeRec))) +
            countId i ((getTextNodesInRange d r).filter
              (fun t => (findContainingBlockElement t).isSome)) := haux
      _ ≤ 1 := by
          simp only [groupMembers, List.map_nil, List.flatten_nil, countId,
            List.countP_nil, Nat.zero_add]
          exact le_trans hfil hcnt
  · exact groupsKeyed_foldl_groupStep (getTextNodesInRange d r) []
      (fun g hg => absurd hg (List.not_mem_nil g))

/-- C8 witness: on `twoLeafDoc` with the range covering both leaves,
the node ids are distinct and id 1 occurs at most once across the
groups. -/
theorem C8_witness :
    ((getTextNodesInRange twoLeafDoc ⟨1, 0, 2, 5⟩).map (fun t => t.id)).Nodup ∧
    countId 1 (groupMembers (buildGroups
      (getTextNodesInRange twoLeafDoc ⟨1, 0, 2, 5⟩))) ≤ 1 :=
  ⟨by decide,
   (C8_node_in_at_most_one_group twoLeafDoc ⟨1, 0, 2, 5⟩ (by decide)).1 1⟩

/-- Each step of the per-group loop appends exactly the leaf's
contribution to `elementText`. -/
theorem processLeaf_elementText (r : Rng) (acc : GroupAcc) (t : TextNodeRec) :
    (processLeaf r acc t).elementText =
      acc.elementText ++ leafContribution r t := by
  by_cases h1 : t.id == r.startId
  · simp [processLeaf, leafContribution, h1]
  · by_cases h2 : t.id == r.endId <;>
      simp [processLeaf, leafContribution, h1, h2]

/-- The per-group loop's final `elementText` is the concatenation of
the members' contributions. -/
theorem foldl_processLeaf_elementText (r : Rng) (ts : List TextNodeRec)
    (acc : GroupAcc) :
    (ts.foldl (processLeaf r) acc).elementText =
      acc.elementText ++ (ts.map (leafContribution r)).flatten := by
  induction ts generalizing acc with
  | nil => simp
  | cons t ts ih =>
    rw [List.foldl_cons, ih, processLeaf_elementText]
    simp

/-- Each step of the per-group loop leaves `firstTextNode` set. -/
theorem processLeaf_firstTextNode_isSome (r : Rng) (acc : GroupAcc)
    (t : TextNodeRec) : (processLeaf r acc t).firstTextNode.isSome := by
  cases h : acc.firstTextNode <;>
  · by_cases h1 : t.id == r.startId
    · simp [processLeaf, h, h1]
    · by_cases h2 : t.id == r.endId <;> simp [processLeaf, h, h1, h2]

/-- Each step of the per-group loop leaves `lastTextNode` set. -/
theorem processLeaf_lastTextNode_isSome (r : Rng) (acc : GroupAcc)
    (t : TextNodeRec) : (processLeaf r acc t).lastTextNode.isSome := by
  by_cases h1 : t.id == r.startId
  · simp [processLeaf, h1]
  · by_cases h2 : t.id == r.endId <;> simp [processLeaf, h1, h2]

/-- Once `firstTextNode` is set it stays set through the loop. -/
theorem foldl_processLeaf_first_pres (r : Rng) (ts : List TextNodeRec)
    (acc : GroupAcc) (h : acc.firstTextNode.isSome) :
    (ts.foldl (processLeaf r) acc).firstTextNode.isSome := by
  induction ts generalizing acc with
  | nil => exact h
  | cons t ts ih =>
    rw [List.foldl_cons]
    exact ih _ (processLeaf_firstTextNode_isSome r acc t)

/-- Once `lastTextNode` is set it stays set through the loop. -/
theorem foldl_processLeaf_last_pres (r : Rng) (ts : List TextNodeRec)
    (acc : GroupAcc) (h : acc.lastTextNode.isSome) :
    (ts.foldl (processLeaf r) acc).lastTextNode.isSome := by
  induction ts generalizing acc with
  | nil => exact h
  | cons t ts ih =>
    rw [List.foldl_cons]
    exact ih _ (processLeaf_lastTextNode_isSome r acc t)

/-- When a group's raw concatenated contribution is already trimmed,
the group's paragraph (if any) carries exactly that raw text, and a
skipped group has empty raw text — either way the text a group hands
to the output equals its raw contribution. -/
theorem processGroup_text (d : Doc) (r : Rng) (ts : List TextNodeRec)
    (h : jsTrim ((ts.map (leafContribution r)).flatten) =
      (ts.map (leafContribution r)).flatten) :
    (match processGroup d r ts with
      | none => ([] : List Char)
      | some p => p.text) = (ts.map (leafContribution r)).flatten := by
  cases ts with
  | nil => simp [processGroup]
  | cons t ts =>
    have hf : ((t :: ts).foldl (processLeaf r)
        ⟨[], none, none, 0, 0⟩).firstTextNode.isSome := by
      rw [List.foldl_cons]
      exact foldl_processLeaf_first_pres r ts _
        (processLeaf_firstTextNode_isSome r _ t)
    have hl : ((t :: ts).foldl (processLeaf r)
        ⟨[], none, none, 0, 0⟩).lastTextNode.isSome := by
      rw [List.foldl_cons]
      exact foldl_processLeaf_last_pres r ts _
        (processLeaf_lastTextNode_isSome r _ t)
    obtain ⟨f, hfEq⟩ := Option.isSome_iff_exists.mp hf
    obtain ⟨l, hlEq⟩ := Option.isSome_iff_exists.mp hl
    have htext := foldl_processLeaf_elementText r (t :: ts) ⟨[], none, none, 0, 0⟩
    simp only [processGroup, hfEq, hlEq, htext, List.nil_append, h]
    split_ifs with hcond
    · have hnil : ((t :: ts).map (leafContribution r)).flatten = [] :=
        List.isEmpty_iff.mp hcond
      exact hnil.symm
    · rfl

/-- Text a filterMap of per-group results concatenates to the groups'
raw contributions when each group hands over exactly its raw text. -/
theorem joinTexts_filterMap {α : Type} (f : α → Option ParagraphOut)
    (g : α → List Char) (l : List α)
    (h : ∀ x ∈ l, (match f x with
      | none => ([] : List Char)
      | some p => p.text) = g x) :
    joinTexts (l.filterMap f) = (l.map g).flatten := by
  induction l with
  | nil => rfl
  | cons x xs ih =>
    have hx := h x (List.mem_cons_self ..)
    have hxs := ih (fun y hy => h y (List.mem_cons_of_mem _ hy))
    cases hfx : f x with
    | none =>
      rw [hfx] at hx
      simp only [List.filterMap_cons, hfx, List.map_cons, List.flatten_cons,
        ← hx, List.nil_append]
      exact hxs
    | some p =>
      rw [hfx] at hx
      simp only [List.filterMap_cons, hfx, List.map_cons, List.flatten_cons,
        ← hx, joinTexts, List.map_cons, List.flatten_cons]
      simp only [joinTexts] at hxs
      rw [hxs]

/-- When the range's start and end containers are distinct nodes, the
`Range.toString` clip of a leaf coincides with the per-group loop's
contribution for that leaf. -/
theorem clipInRange_eq_leafContribution (r : Rng) (t : TextNodeRec)
    (h : r.startId ≠ r.endId) :
    clipInRange r t = leafContribution r t := by
  by_cases h1 : t.id == r.startId
  · have hne : (t.id == r.endId) = false := by
      have h1' : t.id = r.startId := by simpa using h1
      simp [h1', h]
    simp [clipInRange, leafContribution, h1, hne]
  · by_cases h2 : t.id == r.endId <;>
      simp [clipInRange, leafContribution, h1, h2]

/-- Flattening after mapping `flatten` is flattening twice. -/
theorem flatten_map_flatten {α : Type} (ll : List (List (List α))) :
    (ll.map List.flatten).flatten = ll.flatten.flatten := by
  induction ll with
  | nil => rfl
  | cons x xs ih => simp [List.flatten_append, ih]

/-- Concatenating the per-group raw contributions over a group list is
concatenating the contributions of all collected members. -/
theorem flatten_group_texts (r : Rng) (gs : List (Nat × List TextNodeRec)) :
    (gs.map (fun g => (g.2.map (leafContribution r)).flatten)).flatten =
      ((groupMembers gs).map (leafContribution r)).flatten := by
  induction gs with
  | nil => rfl
  | cons g rest ih =>
    simp only [groupMembers, List.map_cons, List.flatten_cons] at ih ⊢
    rw [List.map_append, List.flatten_append, ih]

/-- C7 counterexample: on the displayed page `orphanState` the leaf
`Orphan ` has no block-level ancestor, so its text reaches
`getCurrentViewText` but no paragraph of `getCurrentViewParagraphs`:
the whitespace-normalized concatenation of the returned paragraph
texts is `Alpha text.` while the normalized page text is
`Orphan Alpha text.`. -/
theorem C7_counterexample_dropped_leaf :
    (getCurrentViewParagraphs orphanState).map
        (fun l => normalizeWs (joinTexts l)) = some (S "Alpha text.") ∧
    (getCurrentViewText orphanState).map
        (fun tr => normalizeWs tr.text) = some (S "Orphan Alpha text.") ∧
    S "Alpha text." ≠ S "Orphan Alpha text." := by
  decide

/-- C7 amended: the concatenation law holds provided every intersecting
text node lies under some block-level element and grouping preserves
the document order of the collected nodes (`hmem`), each group's raw
concatenated contribution carries no leading or trailing whitespace
(`htrim`), the start and end containers are distinct nodes (`hids`),
and the range text is not whitespace-only (`hne`): then the plain
concatenation of the returned texts equals the range text exactly, and
hence also after whitespace normalization. -/
theorem C7_concatenation_law_under_hypotheses (d : Doc) (r : Rng)
    (hids : r.startId ≠ r.endId)
    (hmem : groupMembers (buildGroups (getTextNodesInRange d r)) =
      getTextNodesInRange d r)
    (htrim : ∀ g ∈ buildGroups (getTextNodesInRange d r),
      jsTrim ((g.2.map (leafContribution r)).flatten) =
        (g.2.map (leafContribution r)).flatten)
    (hne : jsTrim (rangeToString d r) ≠ []) :
    joinTexts (getParagraphsFromRange d r) = rangeToString d r ∧
    normalizeWs (joinTexts (getParagraphsFromRange d r)) =
      normalizeWs (rangeToString d r) := by
  have hclip : clipInRange r = leafContribution r := by
    funext t
    exact clipInRange_eq_leafContribution r t hids
  have hfull : rangeToString d r =
      ((getTextNodesInRange d r).map (leafContribution r)).flatten := by
    rw [rangeToString, hclip]
  have hL : getTextNodesInRange d r ≠ [] := by
    intro hnil
    apply hne
    rw [hfull, hnil]
    rfl
  have h1 : (jsTrim (rangeToString d r)).isEmpty = false := by
    cases hJ : jsTrim (rangeToString d r) with
    | nil => exact absurd hJ hne
    | cons a as => rfl
  have h2 : (getTextNodesInRange d r).isEmpty = false := by
    cases hK : getTextNodesInRange d r with
    | nil => exact absurd hK hL
    | cons a as => rfl
  have hunfold : getParagraphsFromRange d r =
      (buildGroups (getTextNodesInRange d r)).filterMap
        (fun g => processGroup d r g.2) := by
    simp only [getParagraphsFromRange, h1, h2, Bool.false_eq_true, if_false]
  have hjoin : joinTexts (getParagraphsFromRange d r) = rangeToString d r := by
    rw [hunfold,
      joinTexts_filterMap (fun g => processGroup d r g.2)
        (fun g => (g.2.map (leafContribution r)).flatten) _
        (fun g hg => processGroup_text d r g.2 (htrim g hg)),
      flatten_group_texts, hmem, hfull]
  exact ⟨hjoin, by rw [hjoin]⟩

/-- C7 witness: the amended theorem applied to `twoBlockDoc`, where
both paragraphs sit in their own `p` block and the hypotheses hold. -/
theorem C7_amended_witness :
    (groupMembers (buildGroups (getTextNodesInRange twoBlockDoc twoBlockRng)) =
      getTextNodesInRange twoBlockDoc twoBlockRng) ∧
    joinTexts (getParagraphsFromRange twoBlockDoc twoBlockRng) =
      rangeToString twoBlockDoc twoBlockRng :=
  ⟨by decide,
   (C7_concatenation_law_under_hypotheses twoBlockDoc twoBlockRng (by decide)
     (by decide) (by decide) (by decide)).1⟩

end EpubJs
